import Mathlib

/-!
# Verification of the elfin ELF-header reader

A shallow embedding of the repository's three source files
(`src/lib.rs`, `src/utils.rs`) and proofs about the claims of its
specification.

Modelling conventions:
* Machine integers (`u8/u16/u32/u64`) become `Nat`; where the Rust code
  performs arithmetic that can overflow its width, the embedding takes the
  result modulo `2^w` (release-build wrapping semantics).
* Rust `String` values are modelled as lists of Unicode code points
  (`List Nat`); the cast `u8 as char` in Rust yields the scalar value equal
  to the byte, so pushing `byte as char` appends that byte's numeric value.
* The open `File` becomes `ByteSource`: immutable contents, a cursor, and a
  write-only trace of the seek/read operations that were issued, so that
  "no seek / no read happened" is expressible.  An in-memory read returns
  `min (requested, available)` bytes and never raises an I/O error, which is
  the deterministic behaviour the claims quantify over.
* A Rust panic (out-of-bounds `Vec` index or slice) is a distinct outcome
  `PResult.panicked`, separate from returned `ElfError` values.
-/

namespace Elfin

/-- One I/O operation issued against the byte source, for the trace. -/
inductive IOOp where
  | seekOp (off : Nat)
  | readOp (pos n : Nat)
deriving DecidableEq, Repr

/-- Models the open `File`: the file's bytes, the cursor, and the trace of
operations issued so far. -/
structure ByteSource where
  data : List Nat
  pos : Nat
  ops : List IOOp
deriving DecidableEq, Repr

/-- Models `f.seek(SeekFrom::Start(off))`. -/
def ByteSource.seek (f : ByteSource) (off : Nat) : ByteSource :=
  { f with pos := off, ops := f.ops ++ [IOOp.seekOp off] }

/-- Models `f.read(&mut buf)`: fills the front of `buf` with the available bytes at
the cursor (at most `buf.length`), leaves the rest of `buf` unchanged, and
returns the new buffer contents, the number of bytes read, and the advanced
source. -/
def ByteSource.readInto (f : ByteSource) (buf : List Nat) : List Nat × Nat × ByteSource :=
  let chunk := (f.data.drop f.pos).take buf.length
  (chunk ++ buf.drop chunk.length, chunk.length,
    { f with pos := f.pos + chunk.length, ops := f.ops ++ [IOOp.readOp f.pos buf.length] })

/-! ## `src/utils.rs` -/

/-- Embeds `utils::bytes_to_u16` — little-endian, `bytes[0] | bytes[1] << 8`. -/
def bytes_to_u16 (bytes : List Nat) : Nat :=
  bytes.getD 0 0 ||| (bytes.getD 1 0) <<< 8

/-- Embeds `utils::bytes_to_u32`. -/
def bytes_to_u32 (bytes : List Nat) : Nat :=
  bytes.getD 0 0 ||| (bytes.getD 1 0) <<< 8 ||| (bytes.getD 2 0) <<< 16 |||
    (bytes.getD 3 0) <<< 24

/-- Embeds `utils::bytes_to_u64` — the fold `num = num | (each as u64) << i*8` over the
eight bytes with their indices. -/
def bytes_to_u64 (bytes : List Nat) : Nat :=
  bytes.enum.foldl (fun num p => num ||| p.2 <<< (p.1 * 8)) 0

/-- Embeds `utils::read_null_term_str`: iterates over the slice `&bytes[start..]`,
breaking at the first zero byte and pushing every earlier byte as one char.
`none` models the Rust panic raised by the slice `&bytes[start..]` when
`start > bytes.len()`. -/
def read_null_term_str (start : Nat) (bytes : List Nat) : Option (List Nat) :=
  if start ≤ bytes.length then
    some ((bytes.drop start).takeWhile (fun b => b != 0))
  else
    none

/-! ## Errors and outcomes -/

/-- The distinct `desc` strings with which `src/lib.rs` constructs an
`ElfError`.  `truncatedSection` carries the number interpolated into the
message (`buffer.capacity()`, i.e. the declared section size). -/
inductive ErrKind where
  | notElf
  | truncatedSection (capacity : Nat)
  | invalidStringTable
deriving DecidableEq, Repr

/-- Embeds `ElfError { desc, cause }`; `cause : Option<io::Error>` is modelled as an
`Option Unit` since every in-repo construction uses `cause: None`. -/
structure ElfError where
  kind : ErrKind
  cause : Option Unit
deriving DecidableEq, Repr

/-- Outcome of a fallible call: a returned value, a returned `ElfError`, or a
Rust panic (which returns nothing at all). -/
inductive PResult (α : Type) where
  | ok (val : α)
  | err (e : ElfError)
  | panicked
deriving DecidableEq, Repr

/-- Projection used by concrete test statements. -/
def PResult.getOk? {α : Type} : PResult α → Option α
  | PResult.ok v => some v
  | _ => none

/-! ## `ElfHeaders` (`src/lib.rs`) -/

/-- The `ElfHeaders` struct.  `ident : [char; 16]` is the list of the 16
code points. -/
structure ElfHeaders where
  ident : List Nat
  file_type : Nat
  machine : Nat
  version : Nat
  entry_addr : Nat
  program_offset : Nat
  section_offset : Nat
  cpu_flags : Nat
  ehead_size : Nat
  pheader_size : Nat
  pheader_count : Nat
  sheader_size : Nat
  sheader_count : Nat
  str_header_index : Nat
deriving DecidableEq, Repr

/-- Embeds `ElfHeaders::new()`. -/
def ElfHeaders.new : ElfHeaders :=
  { ident := List.replicate 16 0
    file_type := 0, machine := 0, version := 0, entry_addr := 0
    program_offset := 0, section_offset := 0, cpu_flags := 0
    ehead_size := 0, pheader_size := 0, pheader_count := 0
    sheader_size := 0, sheader_count := 0, str_header_index := 0 }

/-- The body of `ElfHeaders::from_file` after the magic check succeeded:
stores the identity buffer and decodes the remaining fixed header fields in
on-disk order, reusing the stack buffers exactly as the source does
(factored out of `ElfHeaders.from_file` so the two control-flow arms can be
reasoned about separately). -/
def ElfHeaders.from_file_fields (self : ElfHeaders) (buffer : List Nat)
    (f : ByteSource) : PResult Unit × ElfHeaders × ByteSource :=
    let self := { self with ident := buffer }
    let r := f.readInto (List.replicate 2 0)
    let b2 := r.1
    let f := r.2.2
    let self := { self with file_type := bytes_to_u16 b2 }
    let r := f.readInto b2
    let b2 := r.1
    let f := r.2.2
    let self := { self with machine := bytes_to_u16 b2 }
    let r := f.readInto (List.replicate 4 0)
    let b4 := r.1
    let f := r.2.2
    let self := { self with version := bytes_to_u32 b4 }
    let r := f.readInto (List.replicate 8 0)
    let b8 := r.1
    let f := r.2.2
    let self := { self with entry_addr := bytes_to_u64 b8 }
    let r := f.readInto b8
    let b8 := r.1
    let f := r.2.2
    let self := { self with program_offset := bytes_to_u64 b8 }
    let r := f.readInto b8
    let b8 := r.1
    let f := r.2.2
    let self := { self with section_offset := bytes_to_u64 b8 }
    let r := f.readInto b4
    let b4 := r.1
    let f := r.2.2
    let self := { self with cpu_flags := bytes_to_u32 b4 }
    let r := f.readInto (List.replicate 2 0)
    let c2 := r.1
    let f := r.2.2
    let self := { self with ehead_size := bytes_to_u16 c2 }
    let r := f.readInto c2
    let c2 := r.1
    let f := r.2.2
    let self := { self with pheader_size := bytes_to_u16 c2 }
    let r := f.readInto c2
    let c2 := r.1
    let f := r.2.2
    let self := { self with pheader_count := bytes_to_u16 c2 }
    let r := f.readInto c2
    let c2 := r.1
    let f := r.2.2
    let self := { self with sheader_size := bytes_to_u16 c2 }
    let r := f.readInto c2
    let c2 := r.1
    let f := r.2.2
    let self := { self with sheader_count := bytes_to_u16 c2 }
    let r := f.readInto c2
    let c2 := r.1
    let f := r.2.2
    let self := { self with str_header_index := bytes_to_u16 c2 }
    (PResult.ok (), self, f)

/-- Embeds `ElfHeaders::from_file(&mut self, f)`: reads the 16 identity bytes into
a fresh zeroed buffer, fails with the NotElf error when the first four are
not `7F 45 4C 46`, and otherwise decodes the remaining fields via
`from_file_fields`.  Returns the Rust result together with the final states
of `self` and `f` (both are `&mut` in the source). -/
def ElfHeaders.from_file (self : ElfHeaders) (f : ByteSource) :
    PResult Unit × ElfHeaders × ByteSource :=
  let r := f.readInto (List.replicate 16 0)
  if r.1.take 4 != [0x7f, 0x45, 0x4c, 0x46] then
    (PResult.err { kind := ErrKind.notElf, cause := none }, self, r.2.2)
  else
    ElfHeaders.from_file_fields self r.1 r.2.2

/-! ## Sections (`src/lib.rs`) -/

/-- The `SectionType` enum. -/
inductive SectionType where
  | Unused
  | ProgramData
  | SymbolTable
  | StringTable
  | Rela
  | Hash
  | Dynamic
  | Notes
  | NoBits
  | Rel
  | Unknown
deriving DecidableEq, Repr

/-- The `SectionHeader` struct; `str_name : String` is a code-point list. -/
structure SectionHeader where
  ptr : Nat
  str_name : List Nat
  name : Nat
  i_type : Nat
  sec_type : SectionType
  flags : Nat
  img_addr : Nat
  offset : Nat
  size : Nat
  link : Nat
  info : Nat
  align : Nat
  entry_size : Nat
deriving DecidableEq, Repr

/-- Embeds `SectionHeader::new(location)`. -/
def SectionHeader.new (location : Nat) : SectionHeader :=
  { ptr := location, str_name := [], name := 0, i_type := 0
    sec_type := SectionType.Unknown, flags := 0, img_addr := 0, offset := 0
    size := 0, link := 0, info := 0, align := 0, entry_size := 0 }

/-- The `match self.i_type { SHT_* => ... }` mapping of raw codes. -/
def sec_type_of_code (code : Nat) : SectionType :=
  if code = 0 then SectionType.Unused
  else if code = 1 then SectionType.ProgramData
  else if code = 2 then SectionType.SymbolTable
  else if code = 3 then SectionType.StringTable
  else if code = 4 then SectionType.Rela
  else if code = 5 then SectionType.Hash
  else if code = 6 then SectionType.Dynamic
  else if code = 7 then SectionType.Notes
  else if code = 8 then SectionType.NoBits
  else if code = 9 then SectionType.Rel
  else SectionType.Unknown

/-- Embeds `SectionHeader::from_file(&mut self, f)`: seeks to `self.ptr`, decodes
`name`, `i_type` (mapping it to `sec_type`), `flags`, `img_addr`, `offset`
and `size`, reusing the two stack buffers as the source does. -/
def SectionHeader.from_file (self : SectionHeader) (f : ByteSource) :
    SectionHeader × ByteSource :=
  let f := f.seek self.ptr
  let r := f.readInto (List.replicate 4 0)
  let buffer := r.1
  let f := r.2.2
  let self := { self with name := bytes_to_u32 buffer }
  let r := f.readInto buffer
  let buffer := r.1
  let f := r.2.2
  let self := { self with i_type := bytes_to_u32 buffer }
  let self := { self with sec_type := sec_type_of_code self.i_type }
  let r := f.readInto (List.replicate 8 0)
  let b64 := r.1
  let f := r.2.2
  let self := { self with flags := bytes_to_u64 b64 }
  let r := f.readInto b64
  let b64 := r.1
  let f := r.2.2
  let self := { self with img_addr := bytes_to_u64 b64 }
  let r := f.readInto b64
  let b64 := r.1
  let f := r.2.2
  let self := { self with offset := bytes_to_u64 b64 }
  let r := f.readInto b64
  let b64 := r.1
  let f := r.2.2
  let self := { self with size := bytes_to_u64 b64 }
  (self, f)

/-- The `Section` struct: a header plus its payload bytes. -/
structure Section where
  header : SectionHeader
  data : List Nat
deriving DecidableEq, Repr

/-- The entry pointer computed inside `sections_from_file`'s first loop:
`self.section_offset + (self.sheader_size * i) as u64`.  Both factors are
`u16`, so the product wraps modulo `2^16` before the cast widens it; the
enclosing `u64` addition is taken modulo `2^64`. -/
def entry_ptr (self : ElfHeaders) (i : Nat) : Nat :=
  (self.section_offset + (self.sheader_size * i) % 65536) % 18446744073709551616

/-- First loop of `sections_from_file`, for the given list of indices `i`:
build `SectionHeader::new(entry_ptr i)`, fill it from the file, push it. -/
def read_headers_go (self : ElfHeaders) :
    List Nat → ByteSource → List SectionHeader × ByteSource
  | [], f => ([], f)
  | i :: rest, f =>
    let sh := SectionHeader.from_file (SectionHeader.new (entry_ptr self i)) f
    let r := read_headers_go self rest sh.2
    (sh.1 :: r.1, r.2)

/-- Embeds the loop `for i in 0..self.sheader_count` of `sections_from_file`. -/
def read_headers (self : ElfHeaders) (f : ByteSource) :
    List SectionHeader × ByteSource :=
  read_headers_go self (List.range self.sheader_count) f

/-- Body of the second loop of `sections_from_file` for one header:
allocate `vec![0; size]`; unless the section is `NoBits`, seek to
`header.offset`, read into the buffer, and fail when fewer than `size`
bytes came back (the error message interpolates `buffer.capacity()`);
then push `Section { header, data: buffer }`. -/
def read_section_data (header : SectionHeader) (f : ByteSource) :
    PResult Section × ByteSource :=
  let buffer := List.replicate header.size 0
  if header.sec_type != SectionType.NoBits then
    let f1 := f.seek header.offset
    let r := f1.readInto buffer
    let buffer := r.1
    let read := r.2.1
    let f2 := r.2.2
    if read != (List.replicate header.size 0).length then
      (PResult.err { kind := ErrKind.truncatedSection header.size, cause := none }, f2)
    else
      (PResult.ok { header := header, data := buffer }, f2)
  else
    (PResult.ok { header := header, data := buffer }, f)

/-- Second loop of `sections_from_file`: read each section's payload in
table order, returning the first error and reading nothing further. -/
def read_all_data : List SectionHeader → ByteSource → PResult (List Section) × ByteSource
  | [], f => (PResult.ok [], f)
  | h :: rest, f =>
    let r := read_section_data h f
    match r.1 with
    | PResult.err e => (PResult.err e, r.2)
    | PResult.panicked => (PResult.panicked, r.2)
    | PResult.ok s =>
      let r2 := read_all_data rest r.2
      match r2.1 with
      | PResult.err e => (PResult.err e, r2.2)
      | PResult.panicked => (PResult.panicked, r2.2)
      | PResult.ok ss => (PResult.ok (s :: ss), r2.2)

/-- Name-resolution loop of `sections_from_file`: for every section, decode
`read_null_term_str(header.name, &string_table_data)` and store it in
`str_name`.  `none` propagates the slice panic. -/
def resolve_names (strtab : List Nat) : List Section → Option (List Section)
  | [] => some []
  | s :: rest =>
    match read_null_term_str s.header.name strtab with
    | none => none
    | some nm =>
      match resolve_names strtab rest with
      | none => none
      | some rest2 =>
        some ({ s with header := { s.header with str_name := nm } } :: rest2)

/-- Embeds `ElfHeaders::sections_from_file(&self, f)`: decode all section headers,
read every payload, check that the section at `str_header_index` is a
string table (indexing panics when the index is out of bounds), clone its
data, and resolve every section's name against it. -/
def ElfHeaders.sections_from_file (self : ElfHeaders) (f : ByteSource) :
    PResult (List Section) × ByteSource :=
  let hr := read_headers self f
  let rd := read_all_data hr.1 hr.2
  match rd.1 with
  | PResult.err e => (PResult.err e, rd.2)
  | PResult.panicked => (PResult.panicked, rd.2)
  | PResult.ok sections =>
    if hidx : self.str_header_index < sections.length then
      let str_tbl := sections.get ⟨self.str_header_index, hidx⟩
      if str_tbl.header.sec_type != SectionType.StringTable then
        (PResult.err { kind := ErrKind.invalidStringTable, cause := none }, rd.2)
      else
        let string_table_data := str_tbl.data
        match resolve_names string_table_data sections with
        | none => (PResult.panicked, rd.2)
        | some out => (PResult.ok out, rd.2)
    else
      (PResult.panicked, rd.2)

/-! ## Concrete inputs used by witnesses and counterexamples

`exData` is a minimal synthetic section table: two 40-byte header slots at
file offsets 0 and 40, followed by a 3-byte string-table payload
`[0, 'A', 0]` at offset 80.  Slot 0 is a `StringTable` section
(`name_offset = 1`, `file_offset = 80`, `size = 3`); slot 1 is a `NoBits`
section (`name_offset = 0`, declared `size = 5`). -/

def slot0 : List Nat :=
  [1, 0, 0, 0] ++ [3, 0, 0, 0] ++ List.replicate 8 0 ++ List.replicate 8 0 ++
    [80, 0, 0, 0, 0, 0, 0, 0] ++ [3, 0, 0, 0, 0, 0, 0, 0]

def slot1 : List Nat :=
  [0, 0, 0, 0] ++ [8, 0, 0, 0] ++ List.replicate 8 0 ++ List.replicate 8 0 ++
    List.replicate 8 0 ++ [5, 0, 0, 0, 0, 0, 0, 0]

def exData : List Nat := slot0 ++ slot1 ++ [0, 65, 0]

def exSelf : ElfHeaders :=
  { ElfHeaders.new with
      section_offset := 0, sheader_size := 40, sheader_count := 2
      str_header_index := 0 }

def exSrc : ByteSource := { data := exData, pos := 0, ops := [] }

/-- A header slot whose payload lies past the end of the file
(`file_offset = 1000`, `size = 7`, type `ProgramData`). -/
def slotBad : List Nat :=
  [0, 0, 0, 0] ++ [1, 0, 0, 0] ++ List.replicate 8 0 ++ List.replicate 8 0 ++
    [232, 3, 0, 0, 0, 0, 0, 0] ++ [7, 0, 0, 0, 0, 0, 0, 0]

/-- One-section file whose only section (table index 0) is truncated. -/
def exSrcA : ByteSource := { data := slotBad, pos := 0, ops := [] }

def exSelfA : ElfHeaders :=
  { ElfHeaders.new with
      section_offset := 0, sheader_size := 40, sheader_count := 1
      str_header_index := 0 }

/-- Two-section file where slot 0 reads fine (the string table) and slot 1
(table index 1) is truncated. -/
def exSrcB : ByteSource := { data := slot0 ++ slotBad ++ [0, 65, 0], pos := 0, ops := [] }

/-! ## Bitwise helper lemmas -/

/-- Disjoint bit ranges: `a ||| (b <<< k) = a + b * 2 ^ k` once `a < 2 ^ k`. -/
theorem lor_shift_eq_add (a b k : Nat) (h : a < 2 ^ k) :
    a ||| b <<< k = a + b * 2 ^ k := by
  apply Nat.eq_of_testBit_eq
  intro j
  rw [Nat.testBit_lor, Nat.testBit_shiftLeft]
  have hrw : a + b * 2 ^ k = 2 ^ k * b + a := by ring
  rw [hrw, Nat.testBit_mul_pow_two_add b h j]
  by_cases hj : j < k
  · have : ¬ (j ≥ k) := by omega
    simp [hj, this]
  · have hk : k ≤ j := by omega
    have ha : a < 2 ^ j := lt_of_lt_of_le h (Nat.pow_le_pow_right (by norm_num) hk)
    simp [hj, hk, Nat.testBit_eq_false_of_lt ha]

/-- Accumulating one more little-endian byte stays below the next width. -/
theorem byte_sum_lt (a b k : Nat) (ha : a < 2 ^ k) (hb : b < 256) :
    a + b * 2 ^ k < 2 ^ (k + 8) := by
  have h2 : 2 ^ (k + 8) = 2 ^ k * 256 := by rw [pow_add]; norm_num
  have hb' : b * 2 ^ k ≤ 255 * 2 ^ k := Nat.mul_le_mul_right _ (by omega)
  calc a + b * 2 ^ k < 2 ^ k + 255 * 2 ^ k := Nat.add_lt_add_of_lt_of_le ha hb'
    _ = 2 ^ k * 256 := by ring
    _ = 2 ^ (k + 8) := h2.symm

/-! ## takeWhile helper lemmas -/

/-- A list splits as its `takeWhile` prefix, possibly followed by a failing
element. -/
theorem takeWhile_decomp (p : Nat → Bool) (l : List Nat) :
    l.takeWhile p = l ∨
      ∃ c rest, p c = false ∧ l = l.takeWhile p ++ c :: rest := by
  induction l with
  | nil => left; rfl
  | cons a t ih =>
    cases hp : p a with
    | true =>
      rw [List.takeWhile_cons, if_pos hp]
      rcases ih with h1 | ⟨c, rest, hc, ht⟩
      · left; rw [h1]
      · right
        refine ⟨c, rest, hc, ?_⟩
        rw [List.cons_append, ← ht]
    | false =>
      right
      refine ⟨a, t, hp, ?_⟩
      rw [List.takeWhile_cons, if_neg (by simp [hp])]
      rfl

theorem takeWhile_len_le (p : Nat → Bool) (l : List Nat) :
    (l.takeWhile p).length ≤ l.length := by
  induction l with
  | nil => simp
  | cons a t ih =>
    rw [List.takeWhile_cons]
    by_cases hp : p a = true
    · rw [if_pos hp]; simpa using ih
    · rw [if_neg hp]; simp

/-- Inside its length, `takeWhile` returns the original list's elements. -/
theorem takeWhile_getD (p : Nat → Bool) (l : List Nat) :
    ∀ i, i < (l.takeWhile p).length → (l.takeWhile p).getD i 0 = l.getD i 0 := by
  induction l with
  | nil => intro i h; simp [List.takeWhile] at h
  | cons a t ih =>
    intro i h
    rw [List.takeWhile_cons] at h ⊢
    by_cases hp : p a = true
    · rw [if_pos hp] at h ⊢
      cases i with
      | zero => rfl
      | succ j =>
        simp only [List.length_cons, Nat.succ_lt_succ_iff] at h
        simpa using ih j h
    · rw [if_neg hp] at h
      simp at h

/-! ## Claim C9 -/

/-- C9: for byte arrays of length 2, 4, 8 with bytes below 256,
`bytes_to_u16`, `bytes_to_u32` and `bytes_to_u64` return the little-endian
value `Σ bytes[i] * 2 ^ (8 * i)`; in particular
`bytes_to_u16 [0x01, 0x02] = 0x0201` and
`bytes_to_u64 [0xFF, 0, 0, 0, 0, 0, 0, 0] = 255`. -/
theorem claim9_byte_decoders_little_endian :
    (∀ b0 b1 : Nat, b0 < 256 → b1 < 256 →
      bytes_to_u16 [b0, b1] = b0 + b1 * 2 ^ 8) ∧
    (∀ b0 b1 b2 b3 : Nat, b0 < 256 → b1 < 256 → b2 < 256 → b3 < 256 →
      bytes_to_u32 [b0, b1, b2, b3] =
        b0 + b1 * 2 ^ 8 + b2 * 2 ^ 16 + b3 * 2 ^ 24) ∧
    (∀ b0 b1 b2 b3 b4 b5 b6 b7 : Nat,
      b0 < 256 → b1 < 256 → b2 < 256 → b3 < 256 →
      b4 < 256 → b5 < 256 → b6 < 256 → b7 < 256 →
      bytes_to_u64 [b0, b1, b2, b3, b4, b5, b6, b7] =
        b0 + b1 * 2 ^ 8 + b2 * 2 ^ 16 + b3 * 2 ^ 24 + b4 * 2 ^ 32 +
          b5 * 2 ^ 40 + b6 * 2 ^ 48 + b7 * 2 ^ 56) ∧
    bytes_to_u16 [0x01, 0x02] = 0x0201 ∧
    bytes_to_u64 [0xFF, 0, 0, 0, 0, 0, 0, 0] = 255 := by
  have pb : ∀ b : Nat, b < 256 → b < 2 ^ 8 := by intro b hb; simpa using hb
  refine ⟨?_, ?_, ?_, by decide, by decide⟩
  · intro b0 b1 h0 h1
    show b0 ||| b1 <<< 8 = _
    rw [lor_shift_eq_add b0 b1 8 (pb b0 h0)]
  · intro b0 b1 b2 b3 h0 h1 h2 h3
    show b0 ||| b1 <<< 8 ||| b2 <<< 16 ||| b3 <<< 24 = _
    have e1 := lor_shift_eq_add b0 b1 8 (pb b0 h0)
    have l1 := byte_sum_lt b0 b1 8 (pb b0 h0) h1
    rw [e1]
    have e2 := lor_shift_eq_add _ b2 16 l1
    have l2 := byte_sum_lt _ b2 16 l1 h2
    rw [e2]
    have e3 := lor_shift_eq_add _ b3 24 l2
    rw [e3]
  · intro b0 b1 b2 b3 b4 b5 b6 b7 h0 h1 h2 h3 h4 h5 h6 h7
    show 0 ||| b0 <<< (0 * 8) ||| b1 <<< (1 * 8) ||| b2 <<< (2 * 8) |||
        b3 <<< (3 * 8) ||| b4 <<< (4 * 8) ||| b5 <<< (5 * 8) |||
        b6 <<< (6 * 8) ||| b7 <<< (7 * 8) = _
    have z : (0 : Nat) ||| b0 <<< (0 * 8) = b0 := by simp
    rw [z]
    have e1 := lor_shift_eq_add b0 b1 8 (pb b0 h0)
    have l1 := byte_sum_lt b0 b1 8 (pb b0 h0) h1
    rw [show (1 * 8 : Nat) = 8 by norm_num, e1]
    have e2 := lor_shift_eq_add _ b2 16 l1
    have l2 := byte_sum_lt _ b2 16 l1 h2
    rw [show (2 * 8 : Nat) = 16 by norm_num, e2]
    have e3 := lor_shift_eq_add _ b3 24 l2
    have l3 := byte_sum_lt _ b3 24 l2 h3
    rw [show (3 * 8 : Nat) = 24 by norm_num, e3]
    have e4 := lor_shift_eq_add _ b4 32 l3
    have l4 := byte_sum_lt _ b4 32 l3 h4
    rw [show (4 * 8 : Nat) = 32 by norm_num, e4]
    have e5 := lor_shift_eq_add _ b5 40 l4
    have l5 := byte_sum_lt _ b5 40 l4 h5
    rw [show (5 * 8 : Nat) = 40 by norm_num, e5]
    have e6 := lor_shift_eq_add _ b6 48 l5
    have l6 := byte_sum_lt _ b6 48 l5 h6
    rw [show (6 * 8 : Nat) = 48 by norm_num, e6]
    have e7 := lor_shift_eq_add _ b7 56 l6
    rw [show (7 * 8 : Nat) = 56 by norm_num, e7]

/-- Witness for C9, instantiated at concrete byte arrays. -/
theorem claim9_witness :
    bytes_to_u16 [3, 7] = 3 + 7 * 2 ^ 8 ∧
    bytes_to_u32 [1, 2, 3, 4] = 1 + 2 * 2 ^ 8 + 3 * 2 ^ 16 + 4 * 2 ^ 24 ∧
    bytes_to_u64 [1, 2, 3, 4, 5, 6, 7, 8] =
      1 + 2 * 2 ^ 8 + 3 * 2 ^ 16 + 4 * 2 ^ 24 + 5 * 2 ^ 32 + 6 * 2 ^ 40 +
        7 * 2 ^ 48 + 8 * 2 ^ 56 :=
  ⟨claim9_byte_decoders_little_endian.1 3 7 (by norm_num) (by norm_num),
   claim9_byte_decoders_little_endian.2.1 1 2 3 4
     (by norm_num) (by norm_num) (by norm_num) (by norm_num),
   claim9_byte_decoders_little_endian.2.2.1 1 2 3 4 5 6 7 8
     (by norm_num) (by norm_num) (by norm_num) (by norm_num)
     (by norm_num) (by norm_num) (by norm_num) (by norm_num)⟩

/-! ## Claim C8 (corrected) -/

/-- C8 (amended): `read_null_term_str` produces the bytes from `start` up to
but not including the first zero byte.  When no zero byte exists it silently
returns everything from `start` to the buffer's end with no error, and when
`start` exceeds the buffer's length the slice operation panics; no
`InvalidString` failure exists in the code. -/
theorem claim8_null_term_decode (start : Nat) (bytes : List Nat) :
    (start ≤ bytes.length →
      ∃ l, read_null_term_str start bytes = some l ∧
        (∀ b ∈ l, b ≠ 0) ∧
        (bytes.drop start = l ∨ ∃ rest, bytes.drop start = l ++ 0 :: rest)) ∧
    (bytes.length < start → read_null_term_str start bytes = none) := by
  constructor
  · intro h
    refine ⟨(bytes.drop start).takeWhile (fun b => b != 0), ?_, ?_, ?_⟩
    · rw [read_null_term_str, if_pos h]
    · intro b hb
      have := List.mem_takeWhile_imp hb
      simpa using this
    · rcases takeWhile_decomp (fun b => b != 0) (bytes.drop start) with h1 | hsp
      · left; rw [h1]
      · rcases hsp with ⟨c, rest, hc, hsplit⟩
        right
        have hc0 : c = 0 := by simpa using hc
        exact ⟨rest, by rw [hc0] at hsplit; exact hsplit⟩
  · intro h
    rw [read_null_term_str, if_neg (by omega)]

/-- Counterexample to C8 as stated: on the buffer `[0x41]`, which has no
zero terminator, the decode succeeds with the truncated text `"A"` instead
of failing with `InvalidString`; and with `start` past the end the call
panics (`none`) instead of returning an `InvalidString` error. -/
theorem claim8_counterexample :
    read_null_term_str 0 [0x41] = some [0x41] ∧
    read_null_term_str 2 [0x41] = none := by
  constructor <;> rfl

/-- Witness for C8: the spec's own example buffer `[0x41, 0x42, 0x00, 0x43]`
decoded from offset 0, and an out-of-bounds start on the same buffer. -/
theorem claim8_witness :
    (∃ l, read_null_term_str 0 [0x41, 0x42, 0x00, 0x43] = some l ∧
      (∀ b ∈ l, b ≠ 0) ∧
      (([0x41, 0x42, 0x00, 0x43] : List Nat).drop 0 = l ∨
        ∃ rest, ([0x41, 0x42, 0x00, 0x43] : List Nat).drop 0 = l ++ 0 :: rest)) ∧
    read_null_term_str 9 [0x41, 0x42, 0x00, 0x43] = none :=
  ⟨(claim8_null_term_decode 0 [0x41, 0x42, 0x00, 0x43]).1 (by norm_num),
   (claim8_null_term_decode 9 [0x41, 0x42, 0x00, 0x43]).2 (by norm_num)⟩

/-! ## Claim C10 -/

/-- C10: for every in-bounds start offset, `read_null_term_str` returns one
character per byte before the first zero byte, each character's code point
equal to that byte's numeric value (`u8 as char` is the Latin-1
interpretation; bytes `0x80..0xFF` are never combined or UTF-8-decoded). -/
theorem claim10_one_char_per_byte (start : Nat) (bytes : List Nat)
    (h : start ≤ bytes.length) :
    ∃ l, read_null_term_str start bytes = some l ∧
      (∀ i, i < l.length →
        start + i < bytes.length ∧
        l.getD i 0 = bytes.getD (start + i) 0 ∧
        bytes.getD (start + i) 0 ≠ 0) ∧
      (start + l.length = bytes.length ∨ bytes.getD (start + l.length) 0 = 0) := by
  refine ⟨(bytes.drop start).takeWhile (fun b => b != 0), ?_, ?_, ?_⟩
  · rw [read_null_term_str, if_pos h]
  · intro i hi
    have hlen : ((bytes.drop start).takeWhile (fun b => b != 0)).length ≤
        bytes.length - start := by
      have := takeWhile_len_le (fun b => b != 0) (bytes.drop start)
      rwa [List.length_drop] at this
    have hib : start + i < bytes.length := by omega
    have hdropD : (bytes.drop start).getD i 0 = bytes.getD (start + i) 0 := by
      rw [List.getD_eq_getElem?_getD, List.getD_eq_getElem?_getD,
        List.getElem?_drop]
    have htw := takeWhile_getD (fun b => b != 0) (bytes.drop start) i hi
    refine ⟨hib, by rw [htw, hdropD], ?_⟩
    have hmem : ((bytes.drop start).takeWhile (fun b => b != 0)).getD i 0 ∈
        (bytes.drop start).takeWhile (fun b => b != 0) := by
      rw [List.getD_eq_getElem?_getD, List.getElem?_eq_getElem hi]
      exact List.getElem_mem hi
    have hne := List.mem_takeWhile_imp hmem
    rw [htw, hdropD] at hne
    simpa using hne
  · rcases takeWhile_decomp (fun b => b != 0) (bytes.drop start) with h1 | hsp
    · left
      have : ((bytes.drop start).takeWhile (fun b => b != 0)).length =
          bytes.length - start := by rw [h1, List.length_drop]
      omega
    · rcases hsp with ⟨c, rest, hc, hsplit⟩
      right
      have hc0 : c = 0 := by simpa using hc
      rw [hc0] at hsplit
      set tw := (bytes.drop start).takeWhile (fun b => b != 0) with htwdef
      have hdropD : (bytes.drop start).getD tw.length 0 =
          bytes.getD (start + tw.length) 0 := by
        rw [List.getD_eq_getElem?_getD, List.getD_eq_getElem?_getD,
          List.getElem?_drop]
      rw [← hdropD, hsplit, List.getD_eq_getElem?_getD,
        List.getElem?_append_right (le_refl _)]
      simp

/-- Witness for C10: the two bytes of UTF-8 `é` (`0xC3 0xA9`) decode as two
separate characters with those exact code points. -/
theorem claim10_witness :
    ∃ l, read_null_term_str 0 [0xC3, 0xA9, 0] = some l ∧
      (∀ i, i < l.length →
        0 + i < ([0xC3, 0xA9, 0] : List Nat).length ∧
        l.getD i 0 = ([0xC3, 0xA9, 0] : List Nat).getD (0 + i) 0 ∧
        ([0xC3, 0xA9, 0] : List Nat).getD (0 + i) 0 ≠ 0) ∧
      (0 + l.length = ([0xC3, 0xA9, 0] : List Nat).length ∨
        ([0xC3, 0xA9, 0] : List Nat).getD (0 + l.length) 0 = 0) :=
  claim10_one_char_per_byte 0 [0xC3, 0xA9, 0] (by norm_num)

/-! ## Claim C1 (corrected) -/

/-- C1 (amended): for a `NoBits` section header, the payload loop of
`sections_from_file` returns the section with `data` equal to the
**zero-filled buffer of the declared size** (`vec![0; size]`, not the empty
sequence), and leaves the byte source completely untouched: no seek to and
no read of that section's `file_offset` is performed (the returned source,
including its operation trace, is the input source). -/
theorem claim1_nobits_no_io (header : SectionHeader) (f : ByteSource)
    (h : header.sec_type = SectionType.NoBits) :
    read_section_data header f =
      (PResult.ok { header := header, data := List.replicate header.size 0 }, f) := by
  simp [read_section_data, h]

/-- Counterexample to C1 as stated: on the synthetic file `exData`,
`sections_from_file` succeeds and its `NoBits` section (table index 1,
declared size 5) comes back with `data = [0, 0, 0, 0, 0]` of length 5 —
not the empty sequence. -/
theorem claim1_counterexample :
    (ElfHeaders.sections_from_file exSelf exSrc).1.getOk?.isSome = true ∧
    ((ElfHeaders.sections_from_file exSelf exSrc).1.getOk?.getD []).map
        (fun s => (s.header.sec_type, s.data)) =
      [(SectionType.StringTable, [0, 65, 0]),
       (SectionType.NoBits, [0, 0, 0, 0, 0])] := by
  constructor <;> rfl

/-- Witness for C1's amended theorem at a concrete `NoBits` header. -/
theorem claim1_witness :
    read_section_data
        { ptr := 0, str_name := [], name := 0, i_type := 8
          sec_type := SectionType.NoBits, flags := 0, img_addr := 0
          offset := 0, size := 5, link := 0, info := 0, align := 0
          entry_size := 0 } exSrc =
      (PResult.ok
        { header :=
            { ptr := 0, str_name := [], name := 0, i_type := 8
              sec_type := SectionType.NoBits, flags := 0, img_addr := 0
              offset := 0, size := 5, link := 0, info := 0, align := 0
              entry_size := 0 }
          data := List.replicate 5 0 }, exSrc) :=
  claim1_nobits_no_io _ exSrc rfl

/-! ## Claim C4 -/

/-- The first four bytes of the freshly zeroed 16-byte identity buffer after
the initial read, in terms of the raw file contents. -/
theorem buffer_take4 (d : List Nat) :
    ((d.take 16) ++ (List.replicate 16 (0 : Nat)).drop (d.take 16).length).take 4
      = d.take 4 ++ List.replicate (4 - d.length) 0 := by
  rw [List.drop_replicate, List.length_take, List.take_append_eq_append_take,
    List.take_take, List.take_replicate, List.length_take]
  rcases le_or_lt 4 d.length with h | h
  · have hmin : 4 ≤ 16 ⊓ d.length := le_min (by norm_num) h
    have h1 : (4 : Nat) ⊓ 16 = 4 := by norm_num
    have h2 : (4 : Nat) - 16 ⊓ d.length = 0 := by omega
    have h3 : (4 : Nat) - d.length = 0 := by omega
    rw [h1, h2, h3]
    simp
  · have h1 : (4 : Nat) ⊓ 16 = 4 := by norm_num
    have h2 : (16 : Nat) ⊓ d.length = d.length :=
      min_eq_right (by omega)
    rw [h1, h2]
    have h3 : (4 - d.length) ⊓ (16 - d.length) = 4 - d.length :=
      min_eq_left (by omega)
    rw [h3]

/-- C4: for every input whose first 4 bytes (zero-padded if the file is
shorter) are not exactly `7F 45 4C 46`, `from_file` fails with the
`NotElf` error carrying no I/O cause, leaves the header structure
completely unchanged, and performs no read beyond the single initial
16-byte identity read (the trace gains exactly that one read). -/
theorem claim4_notelf_no_partial_header (self : ElfHeaders) (f : ByteSource)
    (hpos : f.pos = 0)
    (hmagic : f.data.take 4 ++ List.replicate (4 - f.data.length) (0 : Nat) ≠
      [0x7f, 0x45, 0x4c, 0x46]) :
    ElfHeaders.from_file self f =
      (PResult.err { kind := ErrKind.notElf, cause := none }, self,
       { data := f.data, pos := min 16 f.data.length
         ops := f.ops ++ [IOOp.readOp 0 16] }) := by
  obtain ⟨d, p, o⟩ := f
  simp only at hpos hmagic
  subst hpos
  have hb : ((d.take 16 ++
      (List.replicate 16 (0 : Nat)).drop (d.take 16).length).take 4 !=
      [0x7f, 0x45, 0x4c, 0x46]) = true := by
    rw [bne_iff_ne, buffer_take4 d]
    exact hmagic
  rw [ElfHeaders.from_file]
  simp only [ByteSource.readInto, List.drop_zero, List.length_replicate]
  rw [if_pos hb]
  simp [List.length_take, Nat.min_comm]

/-- Witness for C4 on the three-byte non-ELF input `[1, 2, 3]`. -/
theorem claim4_witness :
    ElfHeaders.from_file ElfHeaders.new { data := [1, 2, 3], pos := 0, ops := [] } =
      (PResult.err { kind := ErrKind.notElf, cause := none }, ElfHeaders.new,
       { data := [1, 2, 3], pos := 3, ops := [IOOp.readOp 0 16] }) :=
  claim4_notelf_no_partial_header ElfHeaders.new
    { data := [1, 2, 3], pos := 0, ops := [] } rfl (by decide)

/-! ## Header-table characterization

The first loop of `sections_from_file` decodes slot `i` at
`entry_ptr self i`.  Because `SectionHeader::from_file` begins with an
absolute seek, the decoded header depends only on the file contents and
the slot pointer, which the next definitions capture. -/

/-- The section header decoded from file contents `data` at pointer `p`
(the cursor and trace of the source are irrelevant: the decode seeks
first). -/
def decode_entry (data : List Nat) (p : Nat) : SectionHeader :=
  (SectionHeader.from_file (SectionHeader.new p)
    { data := data, pos := 0, ops := [] }).1

/-- The header decoded from table slot `i` for file header `self`. -/
def slot_header (self : ElfHeaders) (data : List Nat) (i : Nat) : SectionHeader :=
  decode_entry data (entry_ptr self i)

/-- The payload the second loop produces for header `h` when it succeeds:
the zero-filled buffer for `NoBits`, otherwise the `size` bytes at
`offset`. -/
def slot_data (data : List Nat) (h : SectionHeader) : List Nat :=
  if h.sec_type = SectionType.NoBits then List.replicate h.size 0
  else (data.drop h.offset).take h.size

/-- Decoding a fresh header depends only on the file contents and the slot
pointer, not on the source's cursor or trace. -/
theorem from_file_fst_eq_decode_entry (p : Nat) (d : List Nat) (q : Nat)
    (o : List IOOp) :
    (SectionHeader.from_file (SectionHeader.new p)
      { data := d, pos := q, ops := o }).1 = decode_entry d p := rfl

/-- Lemma: `SectionHeader::from_file` never changes the file contents. -/
theorem from_file_preserves_data (h : SectionHeader) (f : ByteSource) :
    (SectionHeader.from_file h f).2.data = f.data := by
  obtain ⟨d, q, o⟩ := f
  rfl

/-- Lemma: `decode_entry` stores the slot pointer it was given. -/
theorem decode_entry_ptr (d : List Nat) (p : Nat) :
    (decode_entry d p).ptr = p := rfl

/-- The first loop of `sections_from_file` returns exactly the headers
decoded from the given slots, in order, and leaves the file contents
unchanged. -/
theorem read_headers_go_spec (self : ElfHeaders) (is : List Nat) :
    ∀ f : ByteSource,
      (read_headers_go self is f).1 =
        is.map (fun i => decode_entry f.data (entry_ptr self i)) ∧
      (read_headers_go self is f).2.data = f.data := by
  induction is with
  | nil => intro f; exact ⟨rfl, rfl⟩
  | cons i rest ih =>
    intro f
    obtain ⟨d, q, o⟩ := f
    have hfst := from_file_fst_eq_decode_entry (entry_ptr self i) d q o
    have hdat := from_file_preserves_data
      (SectionHeader.new (entry_ptr self i)) { data := d, pos := q, ops := o }
    have hih := ih (SectionHeader.from_file
      (SectionHeader.new (entry_ptr self i)) { data := d, pos := q, ops := o }).2
    constructor
    · show (SectionHeader.from_file (SectionHeader.new (entry_ptr self i))
          { data := d, pos := q, ops := o }).1 ::
        (read_headers_go self rest _).1 = _
      rw [List.map_cons, hfst, hih.1, hdat]
    · show (read_headers_go self rest _).2.data = d
      rw [hih.2, hdat]

/-- The header list built by `read_headers`. -/
theorem read_headers_spec (self : ElfHeaders) (f : ByteSource) :
    (read_headers self f).1 =
      (List.range self.sheader_count).map (fun i => slot_header self f.data i) ∧
    (read_headers self f).2.data = f.data := by
  rw [read_headers]
  exact read_headers_go_spec self (List.range self.sheader_count) f

/-! ## Claim C7 (code bug) -/

/-- Header used to exhibit the 16-bit overflow: 1025 table entries of the
common 64-byte entry size, table at file offset 100. -/
def exSelf7 : ElfHeaders :=
  { ElfHeaders.new with
      section_offset := 100, sheader_size := 64, sheader_count := 1025 }

def exSrc7 : ByteSource := { data := [], pos := 0, ops := [] }

/-- C7 fails on the code: the per-entry offset is computed as
`self.section_offset + (self.sheader_size * i) as u64` with **u16**
multiplication, which wraps modulo `2^16`.  At `i = 1024` with
`section_entry_size = 64` the product `65536` wraps to `0`, so entry 1024
is decoded from file offset `100` instead of the exact
`100 + 64 * 1024 = 65636` the claim (and the ELF layout contract)
requires. -/
theorem claim7_entry_offset_wraps :
    (read_headers exSelf7 exSrc7).1.length = 1025 ∧
    ((read_headers exSelf7 exSrc7).1.getD 1024 (SectionHeader.new 0)).ptr = 100 ∧
    exSelf7.section_offset + exSelf7.sheader_size * 1024 = 65636 := by
  have hspec := read_headers_spec exSelf7 exSrc7
  have hc : exSelf7.sheader_count = 1025 := rfl
  rw [hspec.1, hc]
  refine ⟨by rw [List.length_map, List.length_range], ?_, by decide⟩
  have hlt : (1024 : Nat) < (List.range 1025).length := by
    rw [List.length_range]; norm_num
  rw [List.getD_eq_getElem?_getD, List.getElem?_map,
    List.getElem?_eq_getElem hlt, List.getElem_range]
  show (slot_header exSelf7 exSrc7.data 1024).ptr = 100
  rw [slot_header, decode_entry_ptr]
  decide

/-! ## Payload-loop characterization -/

/-- The payload loop body preserves the file contents, and on success
returns exactly the section `{ header, slot_data }`. -/
theorem read_section_data_char (h : SectionHeader) (f : ByteSource) :
    (read_section_data h f).2.data = f.data ∧
    (∀ s f2, read_section_data h f = (PResult.ok s, f2) →
      s = { header := h, data := slot_data f.data h }) := by
  by_cases hnb : h.sec_type = SectionType.NoBits
  · constructor
    · simp [read_section_data, hnb]
    · intro s f2 heq
      simp only [read_section_data, hnb, bne_self_eq_false, Bool.false_eq_true,
        if_false, Prod.mk.injEq, PResult.ok.injEq] at heq
      rw [← heq.1]
      simp [slot_data, hnb]
  · obtain ⟨d, q, o⟩ := f
    have hb : (h.sec_type != SectionType.NoBits) = true := bne_iff_ne.mpr hnb
    by_cases hsh : d.length - h.offset < h.size
    · constructor
      · simp [read_section_data, hb, ByteSource.seek, ByteSource.readInto, hsh]
      · intro s f2 heq
        simp [read_section_data, hb, ByteSource.seek, ByteSource.readInto,
          hsh] at heq
    · have hmin : h.size ⊓ (d.length - h.offset) = h.size :=
        min_eq_left (by omega)
      constructor
      · simp [read_section_data, hb, ByteSource.seek, ByteSource.readInto, hsh]
      · intro s f2 heq
        simp only [read_section_data, hb, if_true, ByteSource.seek,
          ByteSource.readInto, List.length_replicate, List.length_take,
          List.length_drop] at heq
        rw [hmin] at heq
        simp only [bne_self_eq_false, Bool.false_eq_true, if_false,
          Prod.mk.injEq, PResult.ok.injEq] at heq
        rw [← heq.1]
        simp only [slot_data, hnb, if_false, Section.mk.injEq, true_and]
        rw [List.drop_replicate, Nat.sub_self]
        simp

/-- Lemma: `read_all_data` preserves the file contents and, on success, returns
exactly one section per header with the `slot_data` payload. -/
theorem read_all_data_char (hs : List SectionHeader) :
    ∀ f : ByteSource,
      (read_all_data hs f).2.data = f.data ∧
      (∀ out f2, read_all_data hs f = (PResult.ok out, f2) →
        out = hs.map (fun h => { header := h, data := slot_data f.data h })) := by
  induction hs with
  | nil =>
    intro f
    refine ⟨rfl, ?_⟩
    intro out f2 heq
    simp only [read_all_data, Prod.mk.injEq, PResult.ok.injEq] at heq
    rw [← heq.1]
    rfl
  | cons h rest ih =>
    intro f
    have hchar := read_section_data_char h f
    have hdat : (read_section_data h f).2.data = f.data := hchar.1
    rcases hr1 : (read_section_data h f).1 with s | e
    case panicked =>
      constructor
      · show (read_all_data (h :: rest) f).2.data = f.data
        rw [read_all_data]
        simp only [hr1]
        exact hdat
      · intro out f3 heq
        rw [read_all_data] at heq
        simp only [hr1] at heq
        simp at heq
    case err =>
      constructor
      · show (read_all_data (h :: rest) f).2.data = f.data
        rw [read_all_data]
        simp only [hr1]
        exact hdat
      · intro out f3 heq
        rw [read_all_data] at heq
        simp only [hr1] at heq
        simp at heq
    case ok =>
      have hs_eq : s = { header := h, data := slot_data f.data h } :=
        hchar.2 s (read_section_data h f).2 (by rw [← hr1])
      have hih := ih (read_section_data h f).2
      have hdat2 : (read_all_data rest (read_section_data h f).2).2.data =
          f.data := hih.1.trans hdat
      rcases hr2 : (read_all_data rest (read_section_data h f).2).1 with ss | e
      case panicked =>
        constructor
        · show (read_all_data (h :: rest) f).2.data = f.data
          rw [read_all_data]
          simp only [hr1, hr2]
          exact hdat2
        · intro out f3 heq
          rw [read_all_data] at heq
          simp only [hr1, hr2] at heq
          simp at heq
      case err =>
        constructor
        · show (read_all_data (h :: rest) f).2.data = f.data
          rw [read_all_data]
          simp only [hr1, hr2]
          exact hdat2
        · intro out f3 heq
          rw [read_all_data] at heq
          simp only [hr1, hr2] at heq
          simp at heq
      case ok =>
        have hss : ss = rest.map
            (fun hh => { header := hh, data := slot_data f.data hh }) := by
          have := hih.2 ss (read_all_data rest (read_section_data h f).2).2
            (by rw [← hr2])
          rw [this, hdat]
        constructor
        · show (read_all_data (h :: rest) f).2.data = f.data
          rw [read_all_data]
          simp only [hr1, hr2]
          exact hdat2
        · intro out f3 heq
          rw [read_all_data] at heq
          simp only [hr1, hr2, Prod.mk.injEq, PResult.ok.injEq] at heq
          rw [← heq.1, List.map_cons, hs_eq, hss]

/-! ## Claim C3 (corrected) -/

/-- C3 (amended): for a non-`NoBits` section, the payload loop seeks to the
section's `file_offset` and issues one read of exactly `size` bytes, so on
success `data` is precisely the `size` bytes at `file_offset`
(`data.length = size`); when the source holds fewer than `size` bytes
there, the call fails with the truncation error — whose message reports
the declared **size** (the buffer capacity), not the section's table
index — and `read_all_data` aborts with that error, so no section is
silently skipped. -/
theorem claim3_exact_read_or_truncation (header : SectionHeader)
    (f : ByteSource) (rest : List SectionHeader)
    (hnb : header.sec_type ≠ SectionType.NoBits) :
    (header.size ≤ f.data.length - header.offset →
      read_section_data header f =
        (PResult.ok { header := header
                      data := (f.data.drop header.offset).take header.size },
         { data := f.data, pos := header.offset + header.size
           ops := f.ops ++ [IOOp.seekOp header.offset,
                            IOOp.readOp header.offset header.size] }) ∧
      ((f.data.drop header.offset).take header.size).length = header.size) ∧
    (f.data.length - header.offset < header.size →
      read_section_data header f =
        (PResult.err { kind := ErrKind.truncatedSection header.size
                       cause := none },
         { data := f.data, pos := header.offset + (f.data.length - header.offset)
           ops := f.ops ++ [IOOp.seekOp header.offset,
                            IOOp.readOp header.offset header.size] }) ∧
      (read_all_data (header :: rest) f).1 =
        PResult.err { kind := ErrKind.truncatedSection header.size
                      cause := none }) := by
  obtain ⟨d, q, o⟩ := f
  have hb : (header.sec_type != SectionType.NoBits) = true := bne_iff_ne.mpr hnb
  constructor
  · intro hle
    simp only at hle
    have hsh : ¬ (d.length - header.offset < header.size) := by omega
    have hmin : header.size ⊓ (d.length - header.offset) = header.size :=
      min_eq_left hle
    constructor
    · simp [read_section_data, hb, ByteSource.seek, ByteSource.readInto, hsh,
        hmin, Nat.sub_self]
    · simp only [List.length_take, List.length_drop]
      exact hmin
  · intro hsh
    simp only at hsh
    have hmin : header.size ⊓ (d.length - header.offset) =
        d.length - header.offset := min_eq_right (le_of_lt hsh)
    have hne : d.length - header.offset ≠ header.size := Nat.ne_of_lt hsh
    have herr : read_section_data header { data := d, pos := q, ops := o } =
        (PResult.err { kind := ErrKind.truncatedSection header.size
                       cause := none },
         { data := d, pos := header.offset + (d.length - header.offset)
           ops := o ++ [IOOp.seekOp header.offset,
                        IOOp.readOp header.offset header.size] }) := by
      simp [read_section_data, hb, ByteSource.seek, ByteSource.readInto, hsh,
        hmin, hne]
    refine ⟨herr, ?_⟩
    rw [read_all_data]
    simp only [herr]

/-- Counterexample to C3's "names that section's table index": the
one-section file `exSrcA` fails at table index 0 and the two-section file
`exSrcB` fails at table index 1 (its slot-0 payload reads fine), yet
`sections_from_file` returns the **identical** error value in both cases
(desc reports the size 7), so the error cannot name the failing index. -/
theorem claim3_counterexample :
    (ElfHeaders.sections_from_file exSelfA exSrcA).1 =
      PResult.err { kind := ErrKind.truncatedSection 7, cause := none } ∧
    (ElfHeaders.sections_from_file exSelf exSrcB).1 =
      PResult.err { kind := ErrKind.truncatedSection 7, cause := none } ∧
    (read_headers exSelfA exSrcA).1.length = 1 ∧
    (read_headers exSelf exSrcB).1.length = 2 := by
  exact ⟨rfl, rfl, rfl, rfl⟩

/-- The header slot 0 of `exData` decodes to (used by witnesses). -/
def exHdrOk : SectionHeader :=
  { ptr := 0, str_name := [], name := 1, i_type := 3
    sec_type := SectionType.StringTable, flags := 0, img_addr := 0
    offset := 80, size := 3, link := 0, info := 0, align := 0
    entry_size := 0 }

/-- A header whose payload lies past the end of `exSrcA`. -/
def exHdrBad : SectionHeader :=
  { ptr := 0, str_name := [], name := 0, i_type := 1
    sec_type := SectionType.ProgramData, flags := 0, img_addr := 0
    offset := 1000, size := 7, link := 0, info := 0, align := 0
    entry_size := 0 }

/-- Witness for C3: a successful 3-byte read at offset 80 of `exData`, and
a truncated 7-byte read at offset 1000 of the 40-byte `exSrcA`. -/
theorem claim3_witness :
    (read_section_data exHdrOk exSrc =
      (PResult.ok { header := exHdrOk, data := [0, 65, 0] },
       { data := exData, pos := 83
         ops := [IOOp.seekOp 80, IOOp.readOp 80 3] }) ∧
      ((exData.drop 80).take 3).length = 3) ∧
    (read_section_data exHdrBad exSrcA =
      (PResult.err { kind := ErrKind.truncatedSection 7, cause := none },
       { data := slotBad, pos := 1000
         ops := [IOOp.seekOp 1000, IOOp.readOp 1000 7] }) ∧
      (read_all_data [exHdrBad] exSrcA).1 =
        PResult.err { kind := ErrKind.truncatedSection 7, cause := none }) :=
  ⟨(claim3_exact_read_or_truncation exHdrOk exSrc [] (by decide)).1 (by decide),
   (claim3_exact_read_or_truncation exHdrBad exSrcA [] (by decide)).2 (by decide)⟩

/-! ## Claim C5 -/

/-- C5: when the payload phase succeeds and the section at
`str_header_index` exists but is not of `StringTable` type,
`sections_from_file` fails with the invalid-string-table error and returns
no sections; the hypotheses say nothing about any `name_offset`, so the
failure precedes every name-resolution attempt. -/
theorem claim5_invalid_string_table (self : ElfHeaders) (f : ByteSource)
    (sections : List Section) (f2 : ByteSource)
    (hread : read_all_data (read_headers self f).1 (read_headers self f).2 =
      (PResult.ok sections, f2))
    (hidx : self.str_header_index < sections.length)
    (htype : (sections.get ⟨self.str_header_index, hidx⟩).header.sec_type ≠
      SectionType.StringTable) :
    (ElfHeaders.sections_from_file self f).1 =
      PResult.err { kind := ErrKind.invalidStringTable, cause := none } := by
  have hbt : ((sections.get ⟨self.str_header_index, hidx⟩).header.sec_type !=
      SectionType.StringTable) = true := bne_iff_ne.mpr htype
  rw [ElfHeaders.sections_from_file]
  simp only [hread, dif_pos hidx, hbt, if_true]

/-- The string-table slot of this variant of `exData` has type
`ProgramData` (code 1) instead of `StringTable`. -/
def exDataP : List Nat :=
  ([1, 0, 0, 0] ++ [1, 0, 0, 0] ++ List.replicate 8 0 ++ List.replicate 8 0 ++
    [80, 0, 0, 0, 0, 0, 0, 0] ++ [3, 0, 0, 0, 0, 0, 0, 0]) ++ slot1 ++ [0, 65, 0]

def exSrcP : ByteSource := { data := exDataP, pos := 0, ops := [] }

/-- The sections produced by the payload phase on `exSrcP`. -/
def exSecsP : List Section :=
  ((read_all_data (read_headers exSelf exSrcP).1
    (read_headers exSelf exSrcP).2).1).getOk?.getD []

def exF2P : ByteSource :=
  (read_all_data (read_headers exSelf exSrcP).1 (read_headers exSelf exSrcP).2).2

/-- Witness for C5: on `exSrcP` the designated string-table section (index
0) has type `ProgramData`, and the parse returns the invalid-string-table
error. -/
theorem claim5_witness :
    (ElfHeaders.sections_from_file exSelf exSrcP).1 =
      PResult.err { kind := ErrKind.invalidStringTable, cause := none } := by
  have hidx : exSelf.str_header_index < exSecsP.length := by decide
  have hread : read_all_data (read_headers exSelf exSrcP).1
      (read_headers exSelf exSrcP).2 = (PResult.ok exSecsP, exF2P) := by decide
  have htype : (exSecsP.get ⟨exSelf.str_header_index, by decide⟩).header.sec_type ≠
      SectionType.StringTable := by decide
  exact claim5_invalid_string_table exSelf exSrcP exSecsP exF2P hread hidx htype

/-! ## Claim C6 (corrected) -/

/-- C6 (amended): when the payload phase succeeds but `str_header_index`
is not smaller than the number of parsed sections, `sections_from_file`
**panics** with an out-of-bounds `Vec` index (the expression
`&sections[self.str_header_index as usize]`) — it does not return an
`IndexOutOfRange` error value, and the code has no such error variant. -/
theorem claim6_oob_string_index_panics (self : ElfHeaders) (f : ByteSource)
    (sections : List Section) (f2 : ByteSource)
    (hread : read_all_data (read_headers self f).1 (read_headers self f).2 =
      (PResult.ok sections, f2))
    (hidx : sections.length ≤ self.str_header_index) :
    (ElfHeaders.sections_from_file self f).1 = PResult.panicked := by
  rw [ElfHeaders.sections_from_file]
  simp only [hread, dif_neg (not_lt.mpr hidx)]

/-- Counterexample to C6 as stated: with `string_table_section_index = 5`
and only 2 sections, `sections_from_file` on `exSrc` panics — the outcome
is not a returned error value of any kind. -/
theorem claim6_counterexample :
    (ElfHeaders.sections_from_file
      { exSelf with str_header_index := 5 } exSrc).1 = PResult.panicked := by
  exact rfl

def exSelf6 : ElfHeaders := { exSelf with str_header_index := 2 }

def exSecs6 : List Section :=
  ((read_all_data (read_headers exSelf6 exSrc).1
    (read_headers exSelf6 exSrc).2).1).getOk?.getD []

def exF26 : ByteSource :=
  (read_all_data (read_headers exSelf6 exSrc).1 (read_headers exSelf6 exSrc).2).2

/-- Witness for C6's amended theorem: index 2 with exactly 2 sections. -/
theorem claim6_witness :
    (ElfHeaders.sections_from_file exSelf6 exSrc).1 = PResult.panicked :=
  claim6_oob_string_index_panics exSelf6 exSrc exSecs6 exF26 (by decide)
    (by decide)

/-! ## Claim C2 -/

/-- The name-resolution loop, on success, maps every section to itself with
`str_name` replaced by the decoded name. -/
theorem resolve_names_ok (strtab : List Nat) (ss : List Section) :
    ∀ out, resolve_names strtab ss = some out →
      out = ss.map (fun s =>
        { s with header := { s.header with
            str_name := (read_null_term_str s.header.name strtab).getD [] } }) := by
  induction ss with
  | nil =>
    intro out h
    simp only [resolve_names, Option.some.injEq] at h
    rw [← h]
    rfl
  | cons s rest ih =>
    intro out h
    rw [resolve_names] at h
    rcases hn : read_null_term_str s.header.name strtab with _ | nm
    · rw [hn] at h
      simp at h
    · rw [hn] at h
      rcases hr : resolve_names strtab rest with _ | rest2
      · rw [hr] at h
        simp at h
      · rw [hr] at h
        simp only [Option.some.injEq] at h
        rw [← h, List.map_cons, ih rest2 hr, hn]
        rfl

/-- C2: when `parse_header` succeeds and `parse_sections` succeeds on the
resulting header, the returned sequence has exactly `sheader_count`
elements, and the element at position `i` is the section decoded from
table slot `i` (in table order, index 0 first): its header is the slot-`i`
header with the name resolved against the designated string-table
section's payload, and its data is that slot's payload. -/
theorem claim2_table_order (h0 : ElfHeaders) (f0 : ByteSource)
    (self : ElfHeaders) (f1 f : ByteSource) (out : List Section)
    (_hhdr : ElfHeaders.from_file h0 f0 = (PResult.ok (), self, f1))
    (hok : (ElfHeaders.sections_from_file self f).1 = PResult.ok out) :
    out.length = self.sheader_count ∧
    ∀ i, (hi : i < out.length) →
      out.get ⟨i, hi⟩ =
        { header := { slot_header self f.data i with
            str_name := (read_null_term_str (slot_header self f.data i).name
              (slot_data f.data
                (slot_header self f.data self.str_header_index))).getD [] }
          data := slot_data f.data (slot_header self f.data i) } := by
  simp only [ElfHeaders.sections_from_file] at hok
  rcases hrd : (read_all_data (read_headers self f).1 (read_headers self f).2).1
    with sections | e
  case err => rw [hrd] at hok; simp at hok
  case panicked => rw [hrd] at hok; simp at hok
  case ok =>
  rw [hrd] at hok
  simp only at hok
  by_cases hidx : self.str_header_index < sections.length
  case neg => rw [dif_neg hidx] at hok; simp at hok
  case pos =>
  rw [dif_pos hidx] at hok
  cases hbt : ((sections.get ⟨self.str_header_index, hidx⟩).header.sec_type !=
      SectionType.StringTable) with
  | true => rw [hbt] at hok; simp at hok
  | false =>
  rw [hbt] at hok
  simp only [Bool.false_eq_true, if_false] at hok
  rcases hres : resolve_names (sections.get ⟨self.str_header_index, hidx⟩).data
      sections with _ | out2
  case none => rw [hres] at hok; simp at hok
  case some =>
  rw [hres] at hok
  simp only [PResult.ok.injEq] at hok
  -- characterize the phases
  have hheaders := read_headers_spec self f
  have hpair : read_all_data (read_headers self f).1 (read_headers self f).2 =
      (PResult.ok sections,
       (read_all_data (read_headers self f).1 (read_headers self f).2).2) := by
    rw [← hrd]
  have hsec0 := (read_all_data_char (read_headers self f).1
    (read_headers self f).2).2 sections _ hpair
  rw [hheaders.1, hheaders.2, List.map_map] at hsec0
  -- sections as a map over the slot indices
  have hsec : sections = (List.range self.sheader_count).map
      (fun i => { header := slot_header self f.data i
                  data := slot_data f.data (slot_header self f.data i) }) := hsec0
  have hseclen : sections.length = self.sheader_count := by
    rw [hsec, List.length_map, List.length_range]
  -- the string table payload
  have hidxc : self.str_header_index < self.sheader_count := by omega
  have hstq : sections[self.str_header_index]? =
      some { header := slot_header self f.data self.str_header_index
             data := slot_data f.data
               (slot_header self f.data self.str_header_index) } := by
    conv_lhs => rw [hsec]
    rw [List.getElem?_map, List.getElem?_range hidxc]
    rfl
  have hst : (sections.get ⟨self.str_header_index, hidx⟩).data =
      slot_data f.data (slot_header self f.data self.str_header_index) := by
    rw [List.get_eq_getElem]
    have hsome := List.getElem?_eq_getElem hidx
    rw [hstq] at hsome
    rw [← Option.some.inj hsome]
  have hout := resolve_names_ok _ sections out2 hres
  rw [hst] at hout
  have hlen : out.length = self.sheader_count := by
    rw [← hok, hout, List.length_map, hseclen]
  refine ⟨hlen, ?_⟩
  intro i hi
  have hic : i < self.sheader_count := by omega
  have hgo : out[i]? =
      some { header := { slot_header self f.data i with
               str_name := (read_null_term_str (slot_header self f.data i).name
                 (slot_data f.data
                   (slot_header self f.data self.str_header_index))).getD [] }
             data := slot_data f.data (slot_header self f.data i) } := by
    rw [← hok, hout]
    conv_lhs => rw [hsec]
    rw [List.map_map, List.getElem?_map, List.getElem?_range hic]
    rfl
  rw [List.get_eq_getElem]
  have hsome := List.getElem?_eq_getElem hi
  rw [hgo] at hsome
  exact (Option.some.inj hsome).symm

/-! Witness input for C2: a complete 147-byte synthetic ELF file — 64-byte
file header (section table at offset 64, two 40-byte entries, string-table
index 0), then the two section header slots, then the 3-byte string table
payload `[0, 'A', 0]` at offset 144. -/

def exHdrData : List Nat :=
  [0x7f, 0x45, 0x4c, 0x46] ++ List.replicate 12 0 ++
    [0, 0] ++ [0, 0] ++ [0, 0, 0, 0] ++ List.replicate 8 0 ++
    List.replicate 8 0 ++ [64, 0, 0, 0, 0, 0, 0, 0] ++ [0, 0, 0, 0] ++
    [0, 0] ++ [0, 0] ++ [0, 0] ++ [40, 0] ++ [2, 0] ++ [0, 0]

def slot0F : List Nat :=
  [1, 0, 0, 0] ++ [3, 0, 0, 0] ++ List.replicate 8 0 ++ List.replicate 8 0 ++
    [144, 0, 0, 0, 0, 0, 0, 0] ++ [3, 0, 0, 0, 0, 0, 0, 0]

def exFull : List Nat := exHdrData ++ slot0F ++ slot1 ++ [0, 65, 0]

def exSrcF : ByteSource := { data := exFull, pos := 0, ops := [] }

/-- The file header that `from_file` decodes from `exFull`. -/
def exSelfF : ElfHeaders :=
  { ident := [0x7f, 0x45, 0x4c, 0x46] ++ List.replicate 12 0
    file_type := 0, machine := 0, version := 0, entry_addr := 0
    program_offset := 0, section_offset := 64, cpu_flags := 0
    ehead_size := 0, pheader_size := 0, pheader_count := 0
    sheader_size := 40, sheader_count := 2, str_header_index := 0 }

def exF1F : ByteSource := (ElfHeaders.from_file ElfHeaders.new exSrcF).2.2

def exOutF : List Section :=
  ((ElfHeaders.sections_from_file exSelfF exSrcF).1).getOk?.getD []

/-- Witness for C2 on the synthetic file `exFull`: the header parse
succeeds, the section parse succeeds with 2 sections, and element 1 is the
section decoded from table slot 1. -/
theorem claim2_witness :
    exOutF.length = exSelfF.sheader_count ∧
    exOutF.get ⟨1, by decide⟩ =
      { header := { slot_header exSelfF exFull 1 with
          str_name := (read_null_term_str (slot_header exSelfF exFull 1).name
            (slot_data exFull
              (slot_header exSelfF exFull exSelfF.str_header_index))).getD [] }
        data := slot_data exFull (slot_header exSelfF exFull 1) } := by
  have h := claim2_table_order ElfHeaders.new exSrcF exSelfF exF1F exSrcF exOutF
    (by decide) (by rfl)
  exact ⟨h.1, h.2 1 (by decide)⟩

end Elfin
